import Mathlib

/-!
Shallow embedding of the YouTube downloader backend (`src/server/app.py`).

The server keeps an in-memory dictionary `download_status` mapping download
ids to job dictionaries, a download folder of artifact files, a background
cleanup loop (`cleanup_old_files`), one background thread per submitted job
(`download_video`), a progress hook (`update_progress`) and three HTTP
handlers (`start_download`, `check_status`, `get_file`).

Dictionaries are embedded as association lists, files as an association
list from file name to last-modified time, numbers as rationals, and the
concurrent system as a guarded step function over a system state.
-/

namespace YtDl

/-- Python whitespace for `str.strip` / regex `\s` (ASCII fragment). -/
def isPySpace (c : Char) : Bool :=
  c == ' ' || c == '\t' || c == '\n' || c == '\r' || c == Char.ofNat 11 || c == Char.ofNat 12

/-- Python `str.strip()` on a list of characters. -/
def pyStrip (l : List Char) : List Char :=
  ((l.dropWhile isPySpace).reverse.dropWhile isPySpace).reverse

/-- Python `str.strip()`. -/
def pyStripStr (s : String) : String :=
  String.mk (pyStrip s.data)

/-- Python substring membership `needle in hay` on character lists. -/
def hasSub (n : List Char) : List Char → Bool
  | [] => n.isEmpty
  | c :: cs => n.isPrefixOf (c :: cs) || hasSub n cs

/-- Python `needle in hay` for strings. -/
def strIn (needle hay : String) : Bool :=
  hasSub needle.data hay.data

/-- Index of the last occurrence of a dot, scanning left to right. -/
def lastDotAux : List Char → Nat → Option Nat → Option Nat
  | [], _, acc => acc
  | c :: cs, i, acc => lastDotAux cs (i + 1) (if c == '.' then some i else acc)

/-- `pathlib.Path(name).suffix`: the extension from the last dot, empty
unless the dot index `i` satisfies `0 < i < len - 1`. -/
def pySuffix (name : String) : String :=
  let cs := name.data
  match lastDotAux cs 0 none with
  | some i => if 0 < i && i + 1 < cs.length then String.mk (cs.drop i) else ""
  | none => ""

/-- The character class removed by `sanitize_filename`'s first regex. -/
def badChars : List Char :=
  ['#', '@', '$', '%', '^', '&', '*', '(', ')', '+', '=', '[', ']',
   Char.ofNat 123, Char.ofNat 125, ';', ':', Char.ofNat 39, '"', ',',
   '<', '>', '?', '/', '\\', '|', Char.ofNat 96, '~']

/-- Regex `\s+` replaced by a single space: collapse runs of whitespace. -/
def collapseWsAux (prevSpace : Bool) : List Char → List Char
  | [] => []
  | c :: cs =>
    if isPySpace c then
      if prevSpace then collapseWsAux true cs
      else ' ' :: collapseWsAux true cs
    else c :: collapseWsAux false cs

/-- Regex `re.sub(r'\s+', ' ', s)`. -/
def collapseWs (l : List Char) : List Char := collapseWsAux false l

/-- `sanitize_filename`: strip special characters, collapse whitespace,
strip, and truncate to 100 characters. -/
def sanitize_filename (title : String) : String :=
  String.mk ((pyStrip (collapseWs (title.data.filter
    (fun c => !(badChars.contains c))))).take 100)

/-- Python `a or b` for an optional number (`None` and `0` are falsy). -/
def pyOr (a : Option ℚ) (b : ℚ) : ℚ :=
  match a with
  | some x => if x = 0 then b else x
  | none => b

/-- `filesize = info.get('filesize') or info.get('filesize_approx', 0)`
followed by `filesize_mb = filesize / (1024 * 1024) if filesize else 0`. -/
def probeSizeMb (filesize filesize_approx : Option ℚ) : ℚ :=
  let fsize := pyOr filesize (filesize_approx.getD 0)
  if fsize = 0 then 0 else fsize / 1048576

/-- Round half to even, as Python `round` does on an exact value. -/
def roundHalfEven (q : ℚ) : ℤ :=
  let f := q.floor
  let r := q - (f : ℚ)
  if r < 1 / 2 then f
  else if 1 / 2 < r then f + 1
  else if f % 2 = 0 then f else f + 1

/-- Python `round(x, 1)`. -/
def pyRound1 (q : ℚ) : ℚ := (roundHalfEven (10 * q) : ℚ) / 10

/-- One entry of the `download_status` dictionary.  The absent dictionary
keys of the Python dicts are `none`. -/
structure JobEntry where
  status : String
  progress : Option ℚ
  filename : Option String
  title : Option String
  size_mb : Option ℚ
  message : Option String
deriving DecidableEq, Repr

/-- `{'status': 'downloading', 'progress': 0}` (app.py line 80). -/
def downloadingEntry : JobEntry := ⟨"downloading", some 0, none, none, none, none⟩

/-- `{'status': 'complete', 'filename': .., 'title': .., 'size_mb': ..}`
(app.py lines 93-98). -/
def completeEntry (fname title : String) (sz : ℚ) : JobEntry :=
  ⟨"complete", none, some fname, some title, some sz, none⟩

/-- `{'status': 'error', 'message': ..}` (app.py lines 102-105 and 108). -/
def errorEntry (msg : String) : JobEntry :=
  ⟨"error", none, none, none, none, some msg⟩

/-- `download_status[download_id]['progress'] = p`: only the progress key
changes. -/
def setProgress (e : JobEntry) (p : ℚ) : JobEntry :=
  ⟨e.status, some p, e.filename, e.title, e.size_mb, e.message⟩

/-- Association-list lookup, the embedding of dictionary access. -/
def alookup {β : Type} : List (String × β) → String → Option β
  | [], _ => none
  | p :: l, k => if p.1 = k then some p.2 else alookup l k

/-- Association-list delete `del d[k]`. -/
def aremove {β : Type} : List (String × β) → String → List (String × β)
  | [], _ => []
  | p :: l, k => if p.1 = k then aremove l k else p :: aremove l k

/-- Association-list write `d[k] = v`. -/
def aset {β : Type} (l : List (String × β)) (k : String) (v : β) :
    List (String × β) :=
  (k, v) :: aremove l k

/-- The `download_status` dictionary. -/
abbrev Registry := List (String × JobEntry)

/-- The status a job dictionary holds, if any. -/
def statusOf (o : Option JobEntry) : Option String := o.map (fun e => e.status)

/-- Outcome of the pre-flight `extract_info(url, download=False)` probe:
either it raises, or it yields the optional `filesize` and
`filesize_approx` fields. -/
inductive Probe where
  | fail (msg : String)
  | ok (filesize : Option ℚ) (filesize_approx : Option ℚ)
deriving DecidableEq, Repr

/-- JSON bodies the `/download` handler can produce. -/
inductive Body where
  | errNoUrl
  | errInvalid
  | errTooLarge (size_mb : ℚ)
  | downloadId (id : String)
deriving DecidableEq, Repr

/-- Result of the `/download` handler: HTTP code, JSON body, and whether a
background `download_video` thread was spawned. -/
structure SubmitOut where
  code : Nat
  body : Body
  spawn : Bool
deriving DecidableEq, Repr

/-- The `/download` handler `start_download` (app.py lines 127-160).
`raw` is `data.get('url', '')`, `probe` the outcome of the optional
pre-flight info extraction, `newId` the fresh uuid. -/
def start_download (raw : String) (probe : Probe) (newId : String) : SubmitOut :=
  let url := pyStripStr raw
  if url = "" then ⟨400, Body.errNoUrl, false⟩
  else if !(strIn "youtube.com" url) && !(strIn "youtu.be" url) then
    ⟨400, Body.errInvalid, false⟩
  else
    match probe with
    | Probe.fail _ => ⟨200, Body.downloadId newId, true⟩
    | Probe.ok fs fsa =>
      let mb := probeSizeMb fs fsa
      if mb > 1000 then ⟨400, Body.errTooLarge mb, false⟩
      else ⟨200, Body.downloadId newId, true⟩

/-- The progress hook `update_progress` (app.py lines 112-119): `dStatus`
is `d['status']`, `pct` the parsed percent (`none` when `float` raises).
A missing id raises `KeyError`, swallowed by the bare `except`. -/
def update_progress (reg : Registry) (id : String) (dStatus : String)
    (pct : Option ℚ) : Registry :=
  if dStatus = "downloading" then
    match alookup reg id with
    | some e =>
      match pct with
      | some p => aset reg id (setProgress e p)
      | none => reg
    | none => reg
  else reg

/-- Outcome of `ydl.extract_info(url, download=True)`: an exception, or an
info dict with optional title and size fields. -/
inductive FetchOutcome where
  | exn (msg : String)
  | ok (title : Option String) (filesize : Option ℚ) (filesize_approx : Option ℚ)
deriving DecidableEq, Repr

/-- The download folder: file name to last-modified time. -/
abbrev Files := List (String × ℚ)

/-- The glob pattern `{download_id}*`: the file name starts with the id. -/
def pyStartsWith (pre s : String) : Bool :=
  pre.data.isPrefixOf s.data

/-- The scan `for file in DOWNLOAD_FOLDER.glob(f'{download_id}*')` keeping
the first file with `file.suffix == '.mp4'` (app.py lines 91-92). -/
def findMp4 (files : Files) (id : String) : Option (String × ℚ) :=
  files.find? (fun f => pyStartsWith id f.1 && pySuffix f.1 == ".mp4")

/-- The registry entry `download_video` writes after the fetch returns
(app.py lines 87-108): on an exception an error entry; on success a
complete entry if a matching `.mp4` exists in the folder, otherwise the
"File not found after download" error entry. -/
def download_video_finish (files : Files) (id : String)
    (out : FetchOutcome) : JobEntry :=
  match out with
  | FetchOutcome.exn msg => errorEntry msg
  | FetchOutcome.ok title fs fsa =>
    match findMp4 files id with
    | some f =>
      completeEntry f.1 (sanitize_filename (title.getD "video"))
        (pyRound1 (probeSizeMb fs fsa))
    | none => errorEntry "File not found after download"

/-- One sweep of `cleanup_old_files` (app.py lines 33-37): delete every
file whose age exceeds 1800 seconds.  The registry is not consulted. -/
def cleanup_old_files (files : Files) (now : ℚ) : Files :=
  files.filter (fun f => ¬(now - f.2 > 1800))

/-- The `/status/<id>` handler: `download_status.get(id, {'status': 'not_found'})`,
projected to the status field. -/
def check_status (reg : Registry) (id : String) : String :=
  match alookup reg id with
  | some e => e.status
  | none => "not_found"

/-- Result of the `/get/<id>` handler. -/
inductive GetResult where
  | notReady
  | fileMissing
  | stream (path : String) (downloadName : String)
  | crash
deriving DecidableEq, Repr

/-- The `/get/<id>` handler `get_file` (app.py lines 169-203), without the
deletion it schedules (modelled as the `serveDelete` step).  `crash` is the
`TypeError` raised by `DOWNLOAD_FOLDER / None` when a complete entry lacks
a filename. -/
def get_file (reg : Registry) (files : Files) (id : String) : GetResult :=
  match alookup reg id with
  | none => GetResult.notReady
  | some st =>
    if st.status ≠ "complete" then GetResult.notReady
    else
      match st.filename with
      | none => GetResult.crash
      | some fname =>
        if (alookup files fname).isSome then
          GetResult.stream fname ((st.title.getD "video") ++ ".mp4")
        else GetResult.fileMissing

/-- Where a job's background thread stands: spawned by `start_download`
but not yet running the body of `download_video`; inside the
`yt_dlp` fetch (registry says downloading, hooks may fire, output files
appear); or finished (the terminal registry entry is written and the
thread is gone). -/
inductive Phase where
  | spawned
  | fetching
  | done
deriving DecidableEq, Repr

/-- The whole server state: the `download_status` dictionary, the download
folder, the per-job thread phases, and a clock (events carry monotone
timestamps). -/
structure SysState where
  registry : Registry
  files : Files
  phase : List (String × Phase)
  clock : ℚ
deriving DecidableEq, Repr

/-- The empty server at startup. -/
def initState : SysState := ⟨[], [], [], 0⟩

/-- Atomic events of the system, each stamped with its time:
`submit` is a `/download` request, `execStart` the first registry write of
a `download_video` thread, `fileWrite` the fetcher creating or touching an
output file, `progHook` a progress callback from inside the fetch,
`execFinish` the terminal registry write, `serveDelete` the delayed
deletion scheduled by `get_file`, and `janitor` one `cleanup_old_files`
sweep. -/
inductive SysEvent where
  | submit (raw : String) (probe : Probe) (newId : String) (now : ℚ)
  | execStart (id : String) (now : ℚ)
  | fileWrite (id : String) (suffix : String) (now : ℚ)
  | progHook (id : String) (dStatus : String) (pct : Option ℚ) (now : ℚ)
  | execFinish (id : String) (out : FetchOutcome) (now : ℚ)
  | serveDelete (id : String) (fname : String) (now : ℚ)
  | janitor (now : ℚ)
deriving DecidableEq, Repr

/-- Guarded small-step semantics: `none` when the event cannot occur in
this state.  Guards encode the program structure of `app.py`: a thread
body runs once after its spawn; progress hooks are invoked only by the
fetch inside `download_video` (its `ydl` object holds the hook closure and
`extract_info` returns before the terminal write); the delayed delete is
scheduled only against a served complete entry and first unlinks the file,
skipping the registry delete when the unlink raises. -/
def stepFn (s : SysState) (e : SysEvent) : Option SysState :=
  match e with
  | SysEvent.submit raw probe newId now =>
    if now < s.clock then none
    else if (alookup s.phase newId).isSome || (alookup s.registry newId).isSome then
      none
    else if (start_download raw probe newId).spawn then
      some ⟨s.registry, s.files, aset s.phase newId Phase.spawned, now⟩
    else some ⟨s.registry, s.files, s.phase, now⟩
  | SysEvent.execStart id now =>
    if now < s.clock then none
    else if alookup s.phase id = some Phase.spawned then
      some ⟨aset s.registry id downloadingEntry, s.files,
        aset s.phase id Phase.fetching, now⟩
    else none
  | SysEvent.fileWrite id suffix now =>
    if now < s.clock then none
    else if alookup s.phase id = some Phase.fetching then
      some ⟨s.registry, aset s.files (id ++ suffix) now, s.phase, now⟩
    else none
  | SysEvent.progHook id dStatus pct now =>
    if now < s.clock then none
    else if alookup s.phase id = some Phase.fetching then
      some ⟨update_progress s.registry id dStatus pct, s.files, s.phase, now⟩
    else none
  | SysEvent.execFinish id out now =>
    if now < s.clock then none
    else if alookup s.phase id = some Phase.fetching then
      some ⟨aset s.registry id (download_video_finish s.files id out), s.files,
        aset s.phase id Phase.done, now⟩
    else none
  | SysEvent.serveDelete id fname now =>
    if now < s.clock then none
    else
      match alookup s.registry id with
      | some st =>
        if st.status = "complete" ∧ st.filename = some fname then
          if (alookup s.files fname).isSome then
            some ⟨aremove s.registry id, aremove s.files fname, s.phase, now⟩
          else some ⟨s.registry, s.files, s.phase, now⟩
        else none
      | none => none
  | SysEvent.janitor now =>
    if now < s.clock then none
    else some ⟨s.registry, cleanup_old_files s.files now, s.phase, now⟩

/-- Run a list of events from a state; `none` if any step is disabled. -/
def runEvents (s : SysState) : List SysEvent → Option SysState
  | [] => some s
  | e :: es =>
    match stepFn s e with
    | some s' => runEvents s' es
    | none => none

/-- Keys of an association list are pairwise distinct. -/
def keysNodup {β : Type} (l : List (String × β)) : Prop :=
  (l.map (fun p => p.1)).Nodup

instance {β : Type} (l : List (String × β)) : Decidable (keysNodup l) := by
  unfold keysNodup; infer_instance

/-- The field-presence invariant of a stored job dictionary: `filename` and
`title` exactly for complete jobs, `message` exactly for error jobs. -/
def entryWF (e : JobEntry) : Prop :=
  (e.filename.isSome = true ↔ e.status = "complete") ∧
  (e.title.isSome = true ↔ e.status = "complete") ∧
  (e.message.isSome = true ↔ e.status = "error")

instance (e : JobEntry) : Decidable (entryWF e) := by
  unfold entryWF; infer_instance

/-- What a thread phase says about the registry entry of its id. -/
def phaseRegOK (reg : Registry) (id : String) : Phase → Prop
  | Phase.spawned => alookup reg id = none
  | Phase.fetching => statusOf (alookup reg id) = some "downloading"
  | Phase.done => True

instance (reg : Registry) (id : String) (p : Phase) :
    Decidable (phaseRegOK reg id p) := by
  cases p with
  | spawned => exact inferInstanceAs (Decidable (alookup reg id = none))
  | fetching =>
    exact inferInstanceAs (Decidable (statusOf (alookup reg id) = some "downloading"))
  | done => exact inferInstanceAs (Decidable True)

/-- What a registry entry says about the phase of its id: a stored job is
either being fetched (status downloading) or finished (terminal status). -/
def regPhaseOK (ph : List (String × Phase)) (id : String) (e : JobEntry) : Prop :=
  (alookup ph id = some Phase.fetching ∧ e.status = "downloading") ∨
  (alookup ph id = some Phase.done ∧ (e.status = "complete" ∨ e.status = "error"))

instance (ph : List (String × Phase)) (id : String) (e : JobEntry) :
    Decidable (regPhaseOK ph id e) := by
  unfold regPhaseOK; infer_instance

/-- System invariant: keys are unique, every thread phase is consistent
with the registry, and every registry entry is consistent with its phase
and well-formed. -/
def Inv (s : SysState) : Prop :=
  keysNodup s.registry ∧ keysNodup s.phase ∧
  (∀ pr ∈ s.phase, phaseRegOK s.registry pr.1 pr.2) ∧
  (∀ en ∈ s.registry, regPhaseOK s.phase en.1 en.2 ∧ entryWF en.2)

instance (s : SysState) : Decidable (Inv s) := by
  unfold Inv; infer_instance

/-- The status changes a single registry key may undergo across one step:
unchanged, first write (downloading), terminal write, or removal of a
complete entry. -/
def statusStepOK (old new : Option String) : Prop :=
  old = new ∨
  (old = none ∧ new = some "downloading") ∨
  (old = some "downloading" ∧ (new = some "complete" ∨ new = some "error")) ∨
  (old = some "complete" ∧ new = none)

instance (old new : Option String) : Decidable (statusStepOK old new) := by
  unfold statusStepOK; infer_instance

section AssocLemmas

variable {β : Type}

theorem alookup_aremove_self (l : List (String × β)) (k : String) :
    alookup (aremove l k) k = none := by
  induction l with
  | nil => rfl
  | cons p l ih =>
    by_cases hp : p.1 = k
    · simpa [aremove, hp] using ih
    · simpa [aremove, alookup, hp] using ih

theorem alookup_aremove_ne {l : List (String × β)} {k k' : String}
    (h : k' ≠ k) : alookup (aremove l k) k' = alookup l k' := by
  induction l with
  | nil => rfl
  | cons p l ih =>
    by_cases hp : p.1 = k
    · have hp' : ¬(p.1 = k') := fun hc => h (hc ▸ hp)
      rw [aremove, if_pos hp, ih]
      simp only [alookup, if_neg hp']
    · rw [aremove, if_neg hp]
      by_cases hpk' : p.1 = k'
      · simp only [alookup, if_pos hpk']
      · simp only [alookup, if_neg hpk', ih]

theorem alookup_aset_self (l : List (String × β)) (k : String) (v : β) :
    alookup (aset l k v) k = some v := by
  simp [aset, alookup]

theorem alookup_aset_ne {l : List (String × β)} {k k' : String} (v : β)
    (h : k' ≠ k) : alookup (aset l k v) k' = alookup l k' := by
  have hne : ¬((k, v).1 = k') := fun hc => h hc.symm
  simp only [aset, alookup, hne, if_neg hne]
  exact alookup_aremove_ne h

theorem alookup_mem {l : List (String × β)} {k : String} {v : β}
    (h : alookup l k = some v) : (k, v) ∈ l := by
  induction l with
  | nil => simp [alookup] at h
  | cons p l ih =>
    by_cases hp : p.1 = k
    · simp [alookup, hp] at h
      refine List.mem_cons.mpr (Or.inl ?_)
      cases p with
      | mk a b => simp_all
    · simp [alookup, hp] at h
      exact List.mem_cons.mpr (Or.inr (ih h))

theorem ne_of_alookup_none {l : List (String × β)} {k : String}
    (h : alookup l k = none) : ∀ p ∈ l, p.1 ≠ k := by
  induction l with
  | nil => intro p hp; simp at hp
  | cons q l ih =>
    intro p hp
    by_cases hq : q.1 = k
    · simp [alookup, hq] at h
    · simp [alookup, hq] at h
      rcases List.mem_cons.mp hp with rfl | hp'
      · exact hq
      · exact ih h p hp'

theorem mem_aremove {l : List (String × β)} {k : String}
    {q : String × β} (h : q ∈ aremove l k) : q ∈ l ∧ q.1 ≠ k := by
  induction l with
  | nil => simp [aremove] at h
  | cons p l ih =>
    by_cases hp : p.1 = k
    · rw [aremove, if_pos hp] at h
      have := ih h
      exact ⟨List.mem_cons_of_mem _ this.1, this.2⟩
    · rw [aremove, if_neg hp] at h
      rcases List.mem_cons.mp h with rfl | h'
      · exact ⟨List.mem_cons_self _ _, hp⟩
      · have := ih h'
        exact ⟨List.mem_cons_of_mem _ this.1, this.2⟩

theorem mem_aset {l : List (String × β)} {k : String} {v : β}
    {q : String × β} (h : q ∈ aset l k v) :
    q = (k, v) ∨ (q ∈ l ∧ q.1 ≠ k) := by
  rcases List.mem_cons.mp h with rfl | h'
  · exact Or.inl rfl
  · exact Or.inr (mem_aremove h')

theorem keysNodup_aremove {l : List (String × β)} {k : String}
    (h : keysNodup l) : keysNodup (aremove l k) := by
  induction l with
  | nil => exact h
  | cons p l ih =>
    have h1 : p.1 ∉ l.map (fun q => q.1) ∧ keysNodup l := by
      simpa [keysNodup] using h
    by_cases hp : p.1 = k
    · rw [aremove, if_pos hp]
      exact ih h1.2
    · rw [aremove, if_neg hp]
      refine List.nodup_cons.mpr ⟨?_, ih h1.2⟩
      intro hc
      rcases List.mem_map.mp hc with ⟨q, hq, hq1⟩
      exact h1.1 (List.mem_map.mpr ⟨q, (mem_aremove hq).1, hq1⟩)

theorem keysNodup_aset {l : List (String × β)} {k : String} {v : β}
    (h : keysNodup l) : keysNodup (aset l k v) := by
  refine List.nodup_cons.mpr ⟨?_, keysNodup_aremove h⟩
  intro hmem
  rcases List.mem_map.mp hmem with ⟨q, hq, hq1⟩
  exact (mem_aremove hq).2 hq1

theorem alookup_of_mem_nodup {l : List (String × β)} {q : String × β}
    (hnd : keysNodup l) (hm : q ∈ l) : alookup l q.1 = some q.2 := by
  induction l with
  | nil => simp at hm
  | cons p l ih =>
    have h1 : p.1 ∉ l.map (fun r => r.1) ∧ keysNodup l := by
      simpa [keysNodup] using hnd
    rcases List.mem_cons.mp hm with rfl | hm'
    · simp [alookup]
    · have hne : p.1 ≠ q.1 := by
        intro hc
        exact h1.1 (List.mem_map.mpr ⟨q, hm', hc.symm⟩)
      simp [alookup, hne, ih h1.2 hm']

end AssocLemmas

theorem entryWF_downloadingEntry : entryWF downloadingEntry := by
  refine ⟨?_, ?_, ?_⟩ <;> simp [downloadingEntry, entryWF]

theorem entryWF_completeEntry (fname title : String) (sz : ℚ) :
    entryWF (completeEntry fname title sz) := by
  refine ⟨?_, ?_, ?_⟩ <;> simp [completeEntry, entryWF]

theorem entryWF_errorEntry (msg : String) : entryWF (errorEntry msg) := by
  refine ⟨?_, ?_, ?_⟩ <;> simp [errorEntry, entryWF]

theorem setProgress_fields (e : JobEntry) (p : ℚ) :
    (setProgress e p).status = e.status ∧
    (setProgress e p).filename = e.filename ∧
    (setProgress e p).title = e.title ∧
    (setProgress e p).size_mb = e.size_mb ∧
    (setProgress e p).message = e.message :=
  ⟨rfl, rfl, rfl, rfl, rfl⟩

theorem entryWF_setProgress {e : JobEntry} (p : ℚ) (h : entryWF e) :
    entryWF (setProgress e p) := h

/-- Every terminal write of `download_video` carries a terminal status. -/
theorem download_video_finish_status (files : Files) (id : String)
    (out : FetchOutcome) :
    (download_video_finish files id out).status = "complete" ∨
    (download_video_finish files id out).status = "error" := by
  cases out with
  | exn msg => exact Or.inr rfl
  | ok title fs fsa =>
    unfold download_video_finish
    cases findMp4 files id with
    | some f => exact Or.inl rfl
    | none => exact Or.inr rfl

theorem entryWF_download_video_finish (files : Files) (id : String)
    (out : FetchOutcome) : entryWF (download_video_finish files id out) := by
  cases out with
  | exn msg => exact entryWF_errorEntry msg
  | ok title fs fsa =>
    unfold download_video_finish
    cases findMp4 files id with
    | some f => exact entryWF_completeEntry _ _ _
    | none => exact entryWF_errorEntry _

theorem phaseRegOK_congr {reg reg' : Registry} {id : String}
    (hlk : alookup reg' id = alookup reg id) {p : Phase}
    (h : phaseRegOK reg id p) : phaseRegOK reg' id p := by
  cases p with
  | spawned => exact hlk.trans h
  | fetching => unfold phaseRegOK at h ⊢; rw [hlk]; exact h
  | done => trivial

theorem regPhaseOK_congr {ph ph' : List (String × Phase)} {id : String}
    (hlk : alookup ph' id = alookup ph id) {e : JobEntry}
    (h : regPhaseOK ph id e) : regPhaseOK ph' id e := by
  unfold regPhaseOK at h ⊢; rw [hlk]; exact h

theorem regPhaseOK_status_congr {ph : List (String × Phase)} {id : String}
    {e e' : JobEntry} (hst : e'.status = e.status)
    (h : regPhaseOK ph id e) : regPhaseOK ph id e' := by
  unfold regPhaseOK at h ⊢; rw [hst]; exact h

/-- `update_progress` either leaves the registry alone or rewrites the
entry of `id` with only its progress field changed. -/
theorem update_progress_cases (reg : Registry) (id : String)
    (dStatus : String) (pct : Option ℚ) :
    update_progress reg id dStatus pct = reg ∨
    ∃ e p, alookup reg id = some e ∧ pct = some p ∧
      update_progress reg id dStatus pct = aset reg id (setProgress e p) := by
  unfold update_progress
  by_cases hd : dStatus = "downloading"
  · rw [if_pos hd]
    cases he : alookup reg id with
    | none => exact Or.inl rfl
    | some e =>
      cases pct with
      | none => exact Or.inl rfl
      | some p => exact Or.inr ⟨e, p, rfl, rfl, rfl⟩
  · rw [if_neg hd]
    exact Or.inl rfl

section StepInversion

theorem stepFn_submit {s : SysState} {raw : String} {probe : Probe}
    {newId : String} {now : ℚ} {s' : SysState}
    (h : stepFn s (SysEvent.submit raw probe newId now) = some s') :
    s'.registry = s.registry ∧ s'.files = s.files ∧
    alookup s.phase newId = none ∧ alookup s.registry newId = none ∧
    (((start_download raw probe newId).spawn = true ∧
      s'.phase = aset s.phase newId Phase.spawned) ∨
     ((start_download raw probe newId).spawn = false ∧ s'.phase = s.phase)) := by
  simp only [stepFn] at h
  split at h
  · simp at h
  · split at h
    · simp at h
    next hfresh =>
      simp only [Bool.or_eq_true, not_or, Option.not_isSome_iff_eq_none] at hfresh
      split at h
      next hsp =>
        refine ⟨?_, ?_, hfresh.1, hfresh.2, Or.inl ⟨hsp, ?_⟩⟩ <;> (cases h; rfl)
      next hsp =>
        refine ⟨?_, ?_, hfresh.1, hfresh.2, Or.inr ⟨?_, ?_⟩⟩
        · cases h; rfl
        · cases h; rfl
        · simpa using hsp
        · cases h; rfl

theorem stepFn_execStart {s : SysState} {id : String} {now : ℚ} {s' : SysState}
    (h : stepFn s (SysEvent.execStart id now) = some s') :
    alookup s.phase id = some Phase.spawned ∧
    s' = ⟨aset s.registry id downloadingEntry, s.files,
      aset s.phase id Phase.fetching, now⟩ := by
  simp only [stepFn] at h
  split at h
  · simp at h
  · split at h
    next hg => exact ⟨hg, by cases h; rfl⟩
    · simp at h

theorem stepFn_fileWrite {s : SysState} {id suffix : String} {now : ℚ}
    {s' : SysState}
    (h : stepFn s (SysEvent.fileWrite id suffix now) = some s') :
    alookup s.phase id = some Phase.fetching ∧
    s' = ⟨s.registry, aset s.files (id ++ suffix) now, s.phase, now⟩ := by
  simp only [stepFn] at h
  split at h
  · simp at h
  · split at h
    next hg => exact ⟨hg, by cases h; rfl⟩
    · simp at h

theorem stepFn_progHook {s : SysState} {id dStatus : String} {pct : Option ℚ}
    {now : ℚ} {s' : SysState}
    (h : stepFn s (SysEvent.progHook id dStatus pct now) = some s') :
    alookup s.phase id = some Phase.fetching ∧
    s' = ⟨update_progress s.registry id dStatus pct, s.files, s.phase, now⟩ := by
  simp only [stepFn] at h
  split at h
  · simp at h
  · split at h
    next hg => exact ⟨hg, by cases h; rfl⟩
    · simp at h

theorem stepFn_execFinish {s : SysState} {id : String} {out : FetchOutcome}
    {now : ℚ} {s' : SysState}
    (h : stepFn s (SysEvent.execFinish id out now) = some s') :
    alookup s.phase id = some Phase.fetching ∧
    s' = ⟨aset s.registry id (download_video_finish s.files id out), s.files,
      aset s.phase id Phase.done, now⟩ := by
  simp only [stepFn] at h
  split at h
  · simp at h
  · split at h
    next hg => exact ⟨hg, by cases h; rfl⟩
    · simp at h

theorem stepFn_serveDelete {s : SysState} {id fname : String} {now : ℚ}
    {s' : SysState}
    (h : stepFn s (SysEvent.serveDelete id fname now) = some s') :
    ∃ st, alookup s.registry id = some st ∧ st.status = "complete" ∧
      st.filename = some fname ∧
      (((alookup s.files fname).isSome = true ∧
        s' = ⟨aremove s.registry id, aremove s.files fname, s.phase, now⟩) ∨
       (alookup s.files fname = none ∧
        s' = ⟨s.registry, s.files, s.phase, now⟩)) := by
  simp only [stepFn] at h
  split at h
  · simp at h
  · split at h
    next st hst =>
      split at h
      next hcond =>
        split at h
        next hfile =>
          exact ⟨st, hst, hcond.1, hcond.2, Or.inl ⟨hfile, by cases h; rfl⟩⟩
        next hfile =>
          refine ⟨st, hst, hcond.1, hcond.2, Or.inr ⟨?_, by cases h; rfl⟩⟩
          simpa [Option.not_isSome_iff_eq_none] using hfile
      · simp at h
    · simp at h

theorem stepFn_janitor {s : SysState} {now : ℚ} {s' : SysState}
    (h : stepFn s (SysEvent.janitor now) = some s') :
    s' = ⟨s.registry, cleanup_old_files s.files now, s.phase, now⟩ := by
  simp only [stepFn] at h
  split at h
  · simp at h
  · cases h; rfl

end StepInversion

/-- A state change touching neither the registry nor the phases keeps the
invariant. -/
theorem Inv_same {s s' : SysState} (h : Inv s)
    (hr : s'.registry = s.registry) (hp : s'.phase = s.phase) : Inv s' := by
  obtain ⟨h1, h2, h3, h4⟩ := h
  refine ⟨hr ▸ h1, hp ▸ h2, ?_, ?_⟩
  · rw [hr, hp]; exact h3
  · rw [hr, hp]; exact h4

/-- The system invariant is preserved by every enabled step. -/
theorem Inv_step {s : SysState} {e : SysEvent} {s' : SysState}
    (hinv : Inv s) (hstep : stepFn s e = some s') : Inv s' := by
  obtain ⟨hndR, hndP, hPR, hRP⟩ := hinv
  cases e with
  | submit raw probe newId now =>
    obtain ⟨hr, hf, hphNone, hregNone, hph⟩ := stepFn_submit hstep
    rcases hph with ⟨hsp, hph⟩ | ⟨hsp, hph⟩
    · refine ⟨hr ▸ hndR, ?_, ?_, ?_⟩
      · rw [hph]; exact keysNodup_aset hndP
      · rw [hr, hph]
        intro pr hpr
        rcases mem_aset hpr with rfl | ⟨hmem, hne⟩
        · exact hregNone
        · exact hPR pr hmem
      · rw [hr, hph]
        intro en hen
        have hne : en.1 ≠ newId := ne_of_alookup_none hregNone en hen
        refine ⟨regPhaseOK_congr (alookup_aset_ne _ hne) (hRP en hen).1,
          (hRP en hen).2⟩
    · exact Inv_same ⟨hndR, hndP, hPR, hRP⟩ hr hph
  | execStart id now =>
    obtain ⟨hg, rfl⟩ := stepFn_execStart hstep
    have hspawn : (id, Phase.spawned) ∈ s.phase := alookup_mem hg
    have hRnone : alookup s.registry id = none := hPR _ hspawn
    refine ⟨keysNodup_aset hndR, keysNodup_aset hndP, ?_, ?_⟩
    · intro pr hpr
      rcases mem_aset hpr with rfl | ⟨hmem, hne⟩
      · unfold phaseRegOK
        rw [alookup_aset_self]
        rfl
      · exact phaseRegOK_congr (alookup_aset_ne _ hne) (hPR pr hmem)
    · intro en hen
      rcases mem_aset hen with rfl | ⟨hmem, hne⟩
      · refine ⟨Or.inl ⟨alookup_aset_self _ _ _, rfl⟩, entryWF_downloadingEntry⟩
      · exact ⟨regPhaseOK_congr (alookup_aset_ne _ hne) (hRP en hmem).1,
          (hRP en hmem).2⟩
  | fileWrite id suffix now =>
    obtain ⟨hg, rfl⟩ := stepFn_fileWrite hstep
    exact Inv_same ⟨hndR, hndP, hPR, hRP⟩ rfl rfl
  | progHook id dStatus pct now =>
    obtain ⟨hg, rfl⟩ := stepFn_progHook hstep
    rcases update_progress_cases s.registry id dStatus pct with hup | ⟨e, p, he, hp, hup⟩
    · exact Inv_same ⟨hndR, hndP, hPR, hRP⟩ hup rfl
    · have hfet : (id, Phase.fetching) ∈ s.phase := alookup_mem hg
      have hdown : statusOf (alookup s.registry id) = some "downloading" :=
        hPR _ hfet
      have hestat : e.status = "downloading" := by
        rw [he] at hdown
        simpa [statusOf] using hdown
      refine ⟨?_, hndP, ?_, ?_⟩
      · show keysNodup (update_progress s.registry id dStatus pct)
        rw [hup]; exact keysNodup_aset hndR
      · intro pr hpr
        show phaseRegOK (update_progress s.registry id dStatus pct) pr.1 pr.2
        rw [hup]
        by_cases hne : pr.1 = id
        · have hlk : alookup s.phase pr.1 = some pr.2 :=
            alookup_of_mem_nodup hndP hpr
          rw [hne, hg] at hlk
          have hpr2 : pr.2 = Phase.fetching := (Option.some.inj hlk).symm
          rw [hne, hpr2]
          unfold phaseRegOK
          rw [alookup_aset_self]
          simp [statusOf, setProgress, hestat]
        · exact phaseRegOK_congr (alookup_aset_ne _ hne) (hPR pr hpr)
      · intro en hen
        show regPhaseOK s.phase en.1 en.2 ∧ entryWF en.2
        rw [hup] at hen
        rcases mem_aset hen with rfl | ⟨hmem, hne⟩
        · have hin : (id, e) ∈ s.registry := alookup_mem he
          refine ⟨regPhaseOK_status_congr rfl (hRP _ hin).1, entryWF_setProgress _ (hRP _ hin).2⟩
        · exact hRP en hmem
  | execFinish id out now =>
    obtain ⟨hg, rfl⟩ := stepFn_execFinish hstep
    refine ⟨keysNodup_aset hndR, keysNodup_aset hndP, ?_, ?_⟩
    · intro pr hpr
      rcases mem_aset hpr with rfl | ⟨hmem, hne⟩
      · trivial
      · exact phaseRegOK_congr (alookup_aset_ne _ hne) (hPR pr hmem)
    · intro en hen
      rcases mem_aset hen with rfl | ⟨hmem, hne⟩
      · exact ⟨Or.inr ⟨alookup_aset_self _ _ _, download_video_finish_status _ _ _⟩,
          entryWF_download_video_finish _ _ _⟩
      · exact ⟨regPhaseOK_congr (alookup_aset_ne _ hne) (hRP en hmem).1,
          (hRP en hmem).2⟩
  | serveDelete id fname now =>
    obtain ⟨st, hst, hcomp, hfn, hbr⟩ := stepFn_serveDelete hstep
    rcases hbr with ⟨hfile, rfl⟩ | ⟨hfile, rfl⟩
    · have hin : (id, st) ∈ s.registry := alookup_mem hst
      have hdone : alookup s.phase id = some Phase.done := by
        rcases (hRP _ hin).1 with ⟨_, hdl⟩ | ⟨hd, _⟩
        · rw [hcomp] at hdl; simp at hdl
        · exact hd
      refine ⟨keysNodup_aremove hndR, hndP, ?_, ?_⟩
      · intro pr hpr
        by_cases hne : pr.1 = id
        · have hlk : alookup s.phase pr.1 = some pr.2 :=
            alookup_of_mem_nodup hndP hpr
          rw [hne, hdone] at hlk
          have hpr2 : pr.2 = Phase.done := (Option.some.inj hlk).symm
          rw [hpr2]
          trivial
        · exact phaseRegOK_congr (alookup_aremove_ne hne) (hPR pr hpr)
      · intro en hen
        obtain ⟨hmem, hne⟩ := mem_aremove hen
        exact hRP en hmem
    · exact Inv_same ⟨hndR, hndP, hPR, hRP⟩ rfl rfl
  | janitor now =>
    have := stepFn_janitor hstep
    subst this
    exact Inv_same ⟨hndR, hndP, hPR, hRP⟩ rfl rfl

/-- C1 (amended).  The claim's Pending phase does not exist: submission
writes nothing to the registry (see `C1_counterexample`).  What does hold:
across every enabled step, the stored status of any id moves only along
absent → downloading → terminal (complete or error), a terminal status is
never overwritten, downloading is never skipped, and nothing ever reverts;
the only further change is outright removal of a complete entry by the
retrieval gate. -/
theorem C1_status_transitions (s : SysState) (e : SysEvent) (s' : SysState)
    (jid : String) (hinv : Inv s) (hstep : stepFn s e = some s') :
    statusStepOK (statusOf (alookup s.registry jid))
      (statusOf (alookup s'.registry jid)) := by
  obtain ⟨hndR, hndP, hPR, hRP⟩ := hinv
  cases e with
  | submit raw probe newId now =>
    obtain ⟨hr, _, _, _, _⟩ := stepFn_submit hstep
    exact Or.inl (by rw [hr])
  | execStart id now =>
    obtain ⟨hg, rfl⟩ := stepFn_execStart hstep
    by_cases hid : jid = id
    · subst hid
      have hRnone : alookup s.registry jid = none := hPR _ (alookup_mem hg)
      refine Or.inr (Or.inl ⟨?_, ?_⟩)
      · rw [hRnone]; rfl
      · show statusOf (alookup (aset s.registry jid downloadingEntry) jid) = _
        rw [alookup_aset_self]; rfl
    · refine Or.inl ?_
      show _ = statusOf (alookup (aset s.registry id downloadingEntry) jid)
      rw [alookup_aset_ne _ hid]
  | fileWrite id suffix now =>
    obtain ⟨hg, rfl⟩ := stepFn_fileWrite hstep
    exact Or.inl rfl
  | progHook id dStatus pct now =>
    obtain ⟨hg, rfl⟩ := stepFn_progHook hstep
    rcases update_progress_cases s.registry id dStatus pct with hup | ⟨ee, p, he, hp, hup⟩
    · refine Or.inl ?_
      show _ = statusOf (alookup (update_progress s.registry id dStatus pct) jid)
      rw [hup]
    · by_cases hid : jid = id
      · subst hid
        refine Or.inl ?_
        show statusOf (alookup s.registry jid) =
          statusOf (alookup (update_progress s.registry jid dStatus pct) jid)
        rw [hup, alookup_aset_self, he]
        rfl
      · refine Or.inl ?_
        show _ = statusOf (alookup (update_progress s.registry id dStatus pct) jid)
        rw [hup, alookup_aset_ne _ hid]
  | execFinish id out now =>
    obtain ⟨hg, rfl⟩ := stepFn_execFinish hstep
    by_cases hid : jid = id
    · subst hid
      have hdown : statusOf (alookup s.registry jid) = some "downloading" :=
        hPR _ (alookup_mem hg)
      refine Or.inr (Or.inr (Or.inl ⟨hdown, ?_⟩))
      show (statusOf (alookup
          (aset s.registry jid (download_video_finish s.files jid out)) jid) =
          some "complete") ∨ _
      rw [alookup_aset_self]
      rcases download_video_finish_status s.files jid out with hst | hst
      · exact Or.inl (by simp [statusOf, hst])
      · exact Or.inr (by simp [statusOf, hst])
    · refine Or.inl ?_
      show _ = statusOf (alookup
        (aset s.registry id (download_video_finish s.files id out)) jid)
      rw [alookup_aset_ne _ hid]
  | serveDelete id fname now =>
    obtain ⟨st, hst, hcomp, hfn, hbr⟩ := stepFn_serveDelete hstep
    rcases hbr with ⟨hfile, rfl⟩ | ⟨hfile, rfl⟩
    · by_cases hid : jid = id
      · subst hid
        refine Or.inr (Or.inr (Or.inr ⟨?_, ?_⟩))
        · rw [hst]; simp [statusOf, hcomp]
        · show statusOf (alookup (aremove s.registry jid) jid) = none
          rw [alookup_aremove_self]; rfl
      · refine Or.inl ?_
        show _ = statusOf (alookup (aremove s.registry id) jid)
        rw [alookup_aremove_ne hid]
    · exact Or.inl rfl
  | janitor now =>
    have := stepFn_janitor hstep
    subst this
    exact Or.inl rfl

/-- C1 counterexample: the claim says the submission call creates the job
in state Pending.  In the code a successful `/download` (HTTP 200, thread
spawned) writes nothing to the registry: polling the id right after
submission yields `not_found`, and no `pending` status exists anywhere. -/
theorem C1_counterexample :
    (start_download "https://youtu.be/abc123" (Probe.ok none none) "d1").code = 200 ∧
    (runEvents initState
      [SysEvent.submit "https://youtu.be/abc123" (Probe.ok none none) "d1" 0]).map
      (fun s => check_status s.registry "d1") = some "not_found" :=
  ⟨rfl, rfl⟩

/-- Witness for `C1_status_transitions` at a concrete terminal write. -/
theorem C1_status_transitions_witness :
    statusStepOK
      (statusOf (alookup
        (SysState.mk [("d1", downloadingEntry)] [] [("d1", Phase.fetching)] 0).registry
        "d1"))
      (statusOf (alookup
        (SysState.mk (aset [("d1", downloadingEntry)] "d1" (errorEntry "boom")) []
          (aset [("d1", Phase.fetching)] "d1" Phase.done) 0).registry "d1")) :=
  C1_status_transitions
    (SysState.mk [("d1", downloadingEntry)] [] [("d1", Phase.fetching)] 0)
    (SysEvent.execFinish "d1" (FetchOutcome.exn "boom") 0)
    (SysState.mk (aset [("d1", downloadingEntry)] "d1" (errorEntry "boom")) []
      (aset [("d1", Phase.fetching)] "d1" Phase.done) 0)
    "d1" (by decide) (by decide)

/-- C2: after every registry write (any enabled step from an invariant
state), every stored job has `filename` and `title` exactly when its
status is complete, and `message` exactly when its status is error. -/
theorem C2_registry_write_invariant (s : SysState) (e : SysEvent)
    (s' : SysState) (id : String) (en : JobEntry) (hinv : Inv s)
    (hstep : stepFn s e = some s') (hlk : alookup s'.registry id = some en) :
    (en.filename.isSome = true ↔ en.status = "complete") ∧
    (en.title.isSome = true ↔ en.status = "complete") ∧
    (en.message.isSome = true ↔ en.status = "error") := by
  have hwf : entryWF en :=
    ((Inv_step hinv hstep).2.2.2 _ (alookup_mem hlk)).2
  exact hwf

/-- Witness for `C2_registry_write_invariant` at the terminal error write
of a failed fetch. -/
theorem C2_registry_write_invariant_witness :
    ((errorEntry "boom").filename.isSome = true ↔
      (errorEntry "boom").status = "complete") ∧
    ((errorEntry "boom").title.isSome = true ↔
      (errorEntry "boom").status = "complete") ∧
    ((errorEntry "boom").message.isSome = true ↔
      (errorEntry "boom").status = "error") :=
  C2_registry_write_invariant
    (SysState.mk [("d1", downloadingEntry)] [] [("d1", Phase.fetching)] 0)
    (SysEvent.execFinish "d1" (FetchOutcome.exn "boom") 0)
    (SysState.mk (aset [("d1", downloadingEntry)] "d1" (errorEntry "boom")) []
      (aset [("d1", Phase.fetching)] "d1" Phase.done) 0)
    "d1" (errorEntry "boom") (by decide) (by decide) (by decide)

unseal Rat.mul Rat.inv in
/-- C3 counterexample: the claim says a 900 MB probe against the limit is
rejected with 403 `size_limit` and no job created.  In the code the limit
is 1000 MB, so a 900 MB probe is accepted outright: HTTP 200 with a
download id, and a background thread is spawned. -/
theorem C3_counterexample :
    start_download "https://youtu.be/abc123"
      (Probe.ok (some (900 * 1048576)) none) "d1" =
    SubmitOut.mk 200 (Body.downloadId "d1") true := by
  decide

/-- C3 (amended): the configured limit is 1000 MB and the rejection is
HTTP 400 with a plain error body carrying the measured size (there is no
403 and no `size_limit`/`limit_mb` shape); when the probe reports a size
over 1000 MB the request is rejected and no job is created: no thread is
spawned and the registry, phases and files are untouched. -/
theorem C3_size_limit (raw : String) (fs fsa : Option ℚ) (newId : String)
    (s : SysState) (now : ℚ) (s' : SysState)
    (hurl : ¬(pyStripStr raw = ""))
    (hyt : strIn "youtube.com" (pyStripStr raw) = true ∨
      strIn "youtu.be" (pyStripStr raw) = true)
    (hmb : probeSizeMb fs fsa > 1000)
    (hstep : stepFn s (SysEvent.submit raw (Probe.ok fs fsa) newId now) = some s') :
    start_download raw (Probe.ok fs fsa) newId =
      SubmitOut.mk 400 (Body.errTooLarge (probeSizeMb fs fsa)) false ∧
    s'.registry = s.registry ∧ s'.phase = s.phase ∧ s'.files = s.files := by
  have hcond : (!strIn "youtube.com" (pyStripStr raw) &&
      !strIn "youtu.be" (pyStripStr raw)) = false := by
    rcases hyt with h | h <;> rw [h] <;> simp
  have hsd : start_download raw (Probe.ok fs fsa) newId =
      SubmitOut.mk 400 (Body.errTooLarge (probeSizeMb fs fsa)) false := by
    unfold start_download
    rw [if_neg hurl, hcond]
    simp only [Bool.false_eq_true, if_false]
    rw [if_pos hmb]
  obtain ⟨hr, hf, _, _, hph⟩ := stepFn_submit hstep
  rcases hph with ⟨hsp, hph⟩ | ⟨hsp, hph⟩
  · rw [hsd] at hsp
    simp at hsp
  · exact ⟨hsd, hr, hph, hf⟩

unseal Rat.mul Rat.inv in
/-- Witness for `C3_size_limit` with an 1100 MB probe. -/
theorem C3_size_limit_witness :
    start_download "https://youtu.be/abc123"
      (Probe.ok (some (1100 * 1048576)) none) "d1" =
      SubmitOut.mk 400
        (Body.errTooLarge (probeSizeMb (some (1100 * 1048576)) none)) false ∧
    (SysState.mk [] [] [] 0).registry = initState.registry ∧
    (SysState.mk [] [] [] 0).phase = initState.phase ∧
    (SysState.mk [] [] [] 0).files = initState.files :=
  C3_size_limit "https://youtu.be/abc123" (some (1100 * 1048576)) none "d1"
    initState 0 (SysState.mk [] [] [] 0)
    (by decide) (Or.inr (by decide)) (by norm_num [probeSizeMb, pyOr])
    (by decide)

/-- C4: once a terminal status (complete or error) is stored for an id, no
progress callback for that id can occur at all — the hook closure is
invoked only inside the fetch, which finishes before the terminal write —
so no progress callback ever modifies a terminal job. -/
theorem C4_terminal_ignores_progress (s : SysState) (id dStatus : String)
    (pct : Option ℚ) (now : ℚ) (hinv : Inv s)
    (hterm : statusOf (alookup s.registry id) = some "complete" ∨
      statusOf (alookup s.registry id) = some "error") :
    stepFn s (SysEvent.progHook id dStatus pct now) = none := by
  have hnf : ¬(alookup s.phase id = some Phase.fetching) := by
    intro hg
    have hd : statusOf (alookup s.registry id) = some "downloading" :=
      hinv.2.2.1 _ (alookup_mem hg)
    rcases hterm with ht | ht <;> rw [hd] at ht <;>
      exact absurd (Option.some.inj ht) (by decide)
  simp [stepFn, hnf]

/-- Witness for `C4_terminal_ignores_progress` on a complete job. -/
theorem C4_terminal_ignores_progress_witness :
    stepFn
      (SysState.mk [("d1", completeEntry "d1.mp4" "My Video" 0)] [("d1.mp4", 0)]
        [("d1", Phase.done)] 0)
      (SysEvent.progHook "d1" "downloading" (some 50) 1) = none :=
  C4_terminal_ignores_progress
    (SysState.mk [("d1", completeEntry "d1.mp4" "My Video" 0)] [("d1.mp4", 0)]
      [("d1", Phase.done)] 0)
    "d1" "downloading" (some 50) 1 (by decide) (Or.inl (by decide))

unseal Rat.sub in
/-- C5 counterexample: the claim says file and registry entry are removed
together (up to a bounded grace window).  After a completed job's file
ages past the retention window, a janitor sweep deletes the artifact file
but leaves the registry entry in place, with nothing scheduled to ever
remove it. -/
theorem C5_counterexample :
    (runEvents initState
      [SysEvent.submit "https://youtu.be/abc123" (Probe.ok none none) "d1" 0,
       SysEvent.execStart "d1" 0,
       SysEvent.fileWrite "d1" ".mp4" 0,
       SysEvent.execFinish "d1" (FetchOutcome.ok (some "My Video") none none) 0,
       SysEvent.janitor 1801]).map
      (fun s => (alookup s.files "d1.mp4", check_status s.registry "d1")) =
    some (none, "complete") := by
  decide

/-- C5 (amended): the retrieval gate's delayed delete removes file and
registry entry together when the file is still on disk (and removes
nothing once the file is gone: the unlink raises before the registry
delete); a janitor sweep deletes only files and never touches the
registry. -/
theorem C5_reclaim_behavior (s : SysState) (now : ℚ) (sj : SysState)
    (id fname : String) (nowd : ℚ) (sd : SysState) :
    (stepFn s (SysEvent.janitor now) = some sj →
      sj.registry = s.registry ∧ sj.phase = s.phase) ∧
    (stepFn s (SysEvent.serveDelete id fname nowd) = some sd →
      (alookup s.files fname).isSome = true →
      alookup sd.registry id = none ∧ alookup sd.files fname = none) ∧
    (stepFn s (SysEvent.serveDelete id fname nowd) = some sd →
      alookup s.files fname = none →
      sd.registry = s.registry ∧ sd.files = s.files) := by
  refine ⟨?_, ?_, ?_⟩
  · intro h
    have := stepFn_janitor h
    subst this
    exact ⟨rfl, rfl⟩
  · intro h hfile
    obtain ⟨st, hst, hcomp, hfn, hbr⟩ := stepFn_serveDelete h
    rcases hbr with ⟨hf, rfl⟩ | ⟨hf, rfl⟩
    · exact ⟨alookup_aremove_self _ _, alookup_aremove_self _ _⟩
    · rw [hf] at hfile
      simp at hfile
  · intro h hnone
    obtain ⟨st, hst, hcomp, hfn, hbr⟩ := stepFn_serveDelete h
    rcases hbr with ⟨hf, rfl⟩ | ⟨hf, rfl⟩
    · rw [hnone] at hf
      simp at hf
    · exact ⟨rfl, rfl⟩

/-- Witness for `C5_reclaim_behavior`: a delayed delete on a served
complete job removes both the registry entry and the file. -/
theorem C5_reclaim_behavior_witness :
    alookup (aremove
      ([("d1", completeEntry "d1.mp4" "My Video" 0)] : Registry) "d1") "d1" = none ∧
    alookup (aremove ([("d1.mp4", (0 : ℚ))] : Files) "d1.mp4") "d1.mp4" = none :=
  (C5_reclaim_behavior
    (SysState.mk [("d1", completeEntry "d1.mp4" "My Video" 0)] [("d1.mp4", 0)]
      [("d1", Phase.done)] 0)
    0
    (SysState.mk [("d1", completeEntry "d1.mp4" "My Video" 0)] [("d1.mp4", 0)]
      [("d1", Phase.done)] 0)
    "d1" "d1.mp4" 5
    (SysState.mk (aremove [("d1", completeEntry "d1.mp4" "My Video" 0)] "d1")
      (aremove [("d1.mp4", 0)] "d1.mp4") [("d1", Phase.done)] 5)).2.1
    (by decide) (by decide)

/-- C6: if the fetch reports success but no file in the download folder
matches `{id}*` with suffix `.mp4`, the terminal registry write is the
"File not found after download" error entry — never complete. -/
theorem C6_missing_artifact (files : Files) (id : String)
    (title : Option String) (fs fsa : Option ℚ)
    (hnone : ∀ f ∈ files, ¬(pyStartsWith id f.1 = true ∧ pySuffix f.1 = ".mp4")) :
    download_video_finish files id (FetchOutcome.ok title fs fsa) =
      errorEntry "File not found after download" ∧
    ¬((download_video_finish files id
        (FetchOutcome.ok title fs fsa)).status = "complete") := by
  have hfind : findMp4 files id = none := by
    unfold findMp4
    apply List.find?_eq_none.mpr
    intro f hf hc
    rw [Bool.and_eq_true] at hc
    exact hnone f hf ⟨hc.1, beq_iff_eq.mp hc.2⟩
  have heq : download_video_finish files id (FetchOutcome.ok title fs fsa) =
      errorEntry "File not found after download" := by
    simp only [download_video_finish]
    rw [hfind]
  refine ⟨heq, ?_⟩
  rw [heq]
  decide

/-- Witness for `C6_missing_artifact`: a folder holding an unrelated mp4
and a non-mp4 file of the job. -/
theorem C6_missing_artifact_witness :
    download_video_finish [("other.mp4", 0), ("d1.txt", 0)] "d1"
      (FetchOutcome.ok (some "My Video") none none) =
      errorEntry "File not found after download" ∧
    ¬((download_video_finish [("other.mp4", 0), ("d1.txt", 0)] "d1"
        (FetchOutcome.ok (some "My Video") none none)).status = "complete") :=
  C6_missing_artifact [("other.mp4", 0), ("d1.txt", 0)] "d1"
    (some "My Video") none none (by decide)

/-- C7: a non-empty URL containing neither "youtube.com" nor "youtu.be"
is answered 400 with body `{error: "Invalid YouTube URL"}`; no thread is
spawned and the registry, phases and files are unchanged. -/
theorem C7_invalid_url (raw : String) (probe : Probe) (newId : String)
    (s : SysState) (now : ℚ) (s' : SysState)
    (hurl : ¬(pyStripStr raw = ""))
    (h1 : strIn "youtube.com" (pyStripStr raw) = false)
    (h2 : strIn "youtu.be" (pyStripStr raw) = false)
    (hstep : stepFn s (SysEvent.submit raw probe newId now) = some s') :
    start_download raw probe newId = SubmitOut.mk 400 Body.errInvalid false ∧
    s'.registry = s.registry ∧ s'.phase = s.phase ∧ s'.files = s.files := by
  have hsd : start_download raw probe newId =
      SubmitOut.mk 400 Body.errInvalid false := by
    simp only [start_download]
    rw [if_neg hurl, h1, h2]
    rfl
  obtain ⟨hr, hf, _, _, hph⟩ := stepFn_submit hstep
  rcases hph with ⟨hsp, hph⟩ | ⟨hsp, hph⟩
  · rw [hsd] at hsp
    simp at hsp
  · exact ⟨hsd, hr, hph, hf⟩

/-- Witness for `C7_invalid_url` at `url = "not-a-youtube-link"`. -/
theorem C7_invalid_url_witness :
    start_download " not-a-youtube-link " (Probe.fail "unreachable") "d1" =
      SubmitOut.mk 400 Body.errInvalid false ∧
    (SysState.mk [] [] [] 0).registry = initState.registry ∧
    (SysState.mk [] [] [] 0).phase = initState.phase ∧
    (SysState.mk [] [] [] 0).files = initState.files :=
  C7_invalid_url " not-a-youtube-link " (Probe.fail "unreachable") "d1"
    initState 0 (SysState.mk [] [] [] 0)
    (by decide) (by decide) (by decide) (by decide)

unseal Rat.sub in
/-- C8 counterexample: the claim says a janitor sweep never deletes the
output file of a Downloading job.  A job stalled in the downloading state
for longer than the retention window has its output file deleted by the
sweep while its stored status is still `downloading`. -/
theorem C8_counterexample :
    (runEvents initState
      [SysEvent.submit "https://youtu.be/abc123" (Probe.ok none none) "d1" 0,
       SysEvent.execStart "d1" 0,
       SysEvent.fileWrite "d1" ".mp4" 0]).map
      (fun s => (check_status s.registry "d1", alookup s.files "d1.mp4")) =
      some ("downloading", some 0) ∧
    (runEvents initState
      [SysEvent.submit "https://youtu.be/abc123" (Probe.ok none none) "d1" 0,
       SysEvent.execStart "d1" 0,
       SysEvent.fileWrite "d1" ".mp4" 0,
       SysEvent.janitor 1801]).map
      (fun s => (check_status s.registry "d1", alookup s.files "d1.mp4")) =
      some ("downloading", none) :=
  ⟨by decide, by decide⟩

/-- C8 (amended): a janitor sweep selects files purely by age: it keeps
exactly the files at most 1800 seconds old, deleting every older file
regardless of the registry status of its job — including the output of a
still-downloading job — and never consults the registry. -/
theorem C8_janitor_age_only (s : SysState) (now : ℚ) (s' : SysState)
    (f : String × ℚ) (hstep : stepFn s (SysEvent.janitor now) = some s') :
    f ∈ s'.files ↔ (f ∈ s.files ∧ ¬(now - f.2 > 1800)) := by
  have := stepFn_janitor hstep
  subst this
  show f ∈ cleanup_old_files s.files now ↔ _
  unfold cleanup_old_files
  rw [List.mem_filter]
  simp

unseal Rat.sub in
/-- Witness for `C8_janitor_age_only`: a young file survives a sweep. -/
theorem C8_janitor_age_only_witness :
    ("a", (0 : ℚ)) ∈ (SysState.mk [] [("a", 0)] [] 1).files ↔
      (("a", (0 : ℚ)) ∈ (SysState.mk [] [("a", 0)] [] 0).files ∧
       ¬((1 : ℚ) - 0 > 1800)) :=
  C8_janitor_age_only (SysState.mk [] [("a", 0)] [] 0) 1
    (SysState.mk [] [("a", 0)] [] 1) ("a", 0) (by decide)

/-- C9: retrieval of an unknown id or a non-complete job answers the
"File not ready" 404; a complete job whose recorded file is gone answers
the "File not found" 404; a stream is produced exactly when the job is
complete and its recorded file exists. -/
theorem C9_retrieval_guard (reg : Registry) (files : Files) (id : String) :
    (alookup reg id = none → get_file reg files id = GetResult.notReady) ∧
    (∀ st, alookup reg id = some st → ¬(st.status = "complete") →
      get_file reg files id = GetResult.notReady) ∧
    (∀ st fn, alookup reg id = some st → st.status = "complete" →
      st.filename = some fn → alookup files fn = none →
      get_file reg files id = GetResult.fileMissing) ∧
    (∀ p n, get_file reg files id = GetResult.stream p n →
      ∃ st, alookup reg id = some st ∧ st.status = "complete" ∧
        st.filename = some p ∧ (alookup files p).isSome = true) := by
  refine ⟨?_, ?_, ?_, ?_⟩
  · intro h
    simp [get_file, h]
  · intro st hst hne
    simp [get_file, hst, hne]
  · intro st fn hst hcomp hfn hmiss
    simp [get_file, hst, hcomp, hfn, hmiss]
  · intro p n h
    unfold get_file at h
    cases hlk : alookup reg id with
    | none => simp [hlk] at h
    | some st =>
      simp only [hlk] at h
      by_cases hc : st.status = "complete"
      · rw [if_neg (by simp [hc])] at h
        cases hfn : st.filename with
        | none => simp [hfn] at h
        | some fn =>
          simp only [hfn] at h
          by_cases hex : (alookup files fn).isSome = true
          · rw [if_pos hex] at h
            injection h with hh1 hh2
            subst hh1
            exact ⟨st, rfl, hc, hfn, hex⟩
          · rw [if_neg hex] at h
            simp at h
      · rw [if_pos (by simp [hc])] at h
        simp at h

/-- Witness for `C9_retrieval_guard`: streaming a complete job, and the
not-ready answer for an unknown id. -/
theorem C9_retrieval_guard_witness :
    get_file [] [] "ghost" = GetResult.notReady ∧
    (∃ st, alookup ([("d1", completeEntry "d1.mp4" "My Video" 0)] : Registry)
        "d1" = some st ∧ st.status = "complete" ∧
      st.filename = some "d1.mp4" ∧
      (alookup ([("d1.mp4", (0 : ℚ))] : Files) "d1.mp4").isSome = true) :=
  ⟨(C9_retrieval_guard [] [] "ghost").1 (by decide),
   (C9_retrieval_guard [("d1", completeEntry "d1.mp4" "My Video" 0)]
      [("d1.mp4", 0)] "d1").2.2.2 "d1.mp4" "My Video.mp4" (by decide)⟩

/-- C10: for a non-empty stripped URL, submission fails URL validation
(body "Invalid YouTube URL") exactly when the string contains neither
"youtube.com" nor "youtu.be" as a substring — a pure substring test, with
no constraint on where the match occurs. -/
theorem C10_url_substring_validation (raw : String) (probe : Probe)
    (newId : String) (hurl : ¬(pyStripStr raw = "")) :
    (start_download raw probe newId).body = Body.errInvalid ↔
      (strIn "youtube.com" (pyStripStr raw) = false ∧
       strIn "youtu.be" (pyStripStr raw) = false) := by
  simp only [start_download]
  rw [if_neg hurl]
  cases hc : (!strIn "youtube.com" (pyStripStr raw) &&
      !strIn "youtu.be" (pyStripStr raw)) with
  | true =>
    rw [if_pos rfl]
    simp only [Bool.and_eq_true, Bool.not_eq_true'] at hc
    simp [hc.1, hc.2]
  | false =>
    rw [if_neg (by simp)]
    refine iff_of_false ?_ ?_
    · cases probe with
      | fail msg => simp
      | ok fs fsa =>
        by_cases hmb : probeSizeMb fs fsa > 1000
        · simp [hmb]
        · simp [hmb]
    · rintro ⟨ha, hb⟩
      rw [ha, hb] at hc
      simp at hc

/-- Witness for `C10_url_substring_validation`: a URL with "youtube.com"
only in its query string passes validation and is accepted. -/
theorem C10_url_substring_validation_witness :
    (start_download "http://evil.example/?youtube.com" (Probe.fail "x")
      "d1").code = 200 ∧
    ((start_download "http://evil.example/?youtube.com" (Probe.fail "x")
        "d1").body = Body.errInvalid ↔
      (strIn "youtube.com" (pyStripStr "http://evil.example/?youtube.com") = false ∧
       strIn "youtu.be" (pyStripStr "http://evil.example/?youtube.com") = false)) :=
  ⟨by decide,
   C10_url_substring_validation "http://evil.example/?youtube.com"
     (Probe.fail "x") "d1" (by decide)⟩

end YtDl
